import Mathlib

/-!
Verification of the go-quickbase client library (WesTower/quickbase).

The development shallowly embeds the parts of `quickbase.go` that the
specification's claims are about:

* `doQueryChanDecode` — the streaming query decoder `DoQueryChan`
  (lines 410-536): the response body is consumed as a stream of XML
  token events; the envelope-level loop validates the `qdbapi` tag and
  dispatches `errcode` / `errtext` / `record`; per-record extraction
  runs in a goroutine that sends completed record maps on a channel.
* `doQueryRecord` — the per-record field extraction of `DoQuery`
  (lines 374-401), which walks the parsed tree and reconstructs
  multi-line values from text nodes and `BR` elements.
* `executeApiCallCheck` — the status check of `executeApiCall`
  (lines 127-136), including Go's `strconv.Atoi` semantics.
* `encodeEnvelope` / `decodeEnvelope` — the request envelope codec
  built from `quickBaseRequest` / `apiParam` (lines 81-103).

Token streams model the events produced by Go's `encoding/xml`
Decoder.  `Tok.decodeErr` stands for `decoder.Token()` returning a
non-nil, non-`io.EOF` error; such errors are sticky (every subsequent
call returns an error again), which is why a loop of the form
`for tok, err := d.Token(); err != io.EOF; tok, err = d.Token()`
never terminates once one occurs.  The end of the token list models a
clean `io.EOF`.
-/

/-- One XML token event from Go's `encoding/xml` Decoder. -/
inductive Tok
  | procInst
  | comment
  | stag (name : String)
  | etag (name : String)
  | cdata (s : String)
  | decodeErr
  deriving DecidableEq, Repr

/-- A record map (Go `map[string]string`), as an association list with
at most one entry per key. -/
abbrev RecordMap := List (String × String)

/-- Go map assignment `m[k] = v`. -/
def mapInsert (m : RecordMap) (k v : String) : RecordMap :=
  (k, v) :: m.filter fun p => p.1 ≠ k

/-- Go map lookup `m[k]` distinguishing presence. -/
def mapGet (m : RecordMap) (k : String) : Option String :=
  (m.find? fun p => p.1 = k).map Prod.snd

/-- Go map read `m[k]`, which yields the zero value `""` for a missing key. -/
def mapGetD (m : RecordMap) (k : String) : String :=
  (mapGet m k).getD ""

/-- How the record-extraction goroutine of `DoQueryChan` ends. -/
inductive StreamEnd
  | closedChan   -- `close(records)` was executed: consumers see end-of-stream
  | eofNoClose   -- the loop hit a clean `io.EOF`; the goroutine returned without closing
  | spinNoClose  -- sticky decoder error: the loop spins forever, the channel is never closed
  deriving DecidableEq, Repr

/-- The observable outcome of a `DoQueryChan` call. -/
inductive ChanOutcome
  | errReturned (msg : String)  -- `return nil, err`: nil channel, non-nil error
  | crashed                     -- a Go runtime panic (failed type assertion, or line 535)
  | hung                        -- the envelope loop spins on a sticky decoder error
  | streamed (e : StreamEnd)    -- `return records, nil`; `e` is how the goroutine ends
  deriving DecidableEq, Repr

/-- Result of `DoQueryChan`: the record maps sent on the channel, in
order, paired with the outcome. -/
abbrev ChanResult := List RecordMap × ChanOutcome

/-- The record-extraction goroutine of `DoQueryChan`
(quickbase.go lines 490-528).  State: the (single, never re-allocated)
record map, `last_field`, `last_data`, `in_record`, and the reversed
list of maps sent so far. -/
def goRecord : List Tok → RecordMap → String → String → Bool → List RecordMap →
    List RecordMap × StreamEnd
  | [], _, _, _, _, acc => (acc.reverse, .eofNoClose)
  | .decodeErr :: _, _, _, _, _, acc => (acc.reverse, .spinNoClose)
  | .procInst :: rest, record, lf, ld, ir, acc => goRecord rest record lf ld ir acc
  | .comment :: rest, record, lf, ld, ir, acc => goRecord rest record lf ld ir acc
  | .cdata s :: rest, record, lf, ld, ir, acc => goRecord rest record lf (ld ++ s) ir acc
  | .stag name :: rest, record, lf, ld, ir, acc =>
      if ir then goRecord rest record name "" true acc
      else if name = "record" then goRecord rest record lf ld true acc
      else (acc.reverse, .closedChan)
  | .etag name :: rest, record, lf, ld, ir, acc =>
      if ir then
        if name = "record" then goRecord rest record lf ld false (record :: acc)
        else goRecord rest (mapInsert record lf ld) "" ld true acc
      else
        if name = "qdbapi" then (acc.reverse, .closedChan)
        else goRecord rest (mapInsert record lf ld) "" ld false acc

/-- The envelope-level inner loop of `DoQueryChan`
(quickbase.go lines 465-532), carrying `qb_errcode` and `qb_errtext`.
After an `errcode`/`errtext` start tag the next token is read and cast
unconditionally to `xml.CharData`; a non-character-data token there is
a failed type assertion, i.e. a panic (`.crashed`). -/
def innerLoop : List Tok → Bool → String → ChanResult
  | [], _, _ => ([], .crashed)
  | .decodeErr :: _, _, _ => ([], .hung)
  | .stag name :: rest, ec, et =>
      if name = "errcode" then
        match rest with
        | [] => ([], .errReturned "EOF")
        | .decodeErr :: _ => ([], .errReturned "decode error")
        | .cdata s :: rest2 =>
            if s ≠ "0" then
              if et ≠ "" then ([], .errReturned et) else innerLoop rest2 true et
            else innerLoop rest2 ec et
        | _ :: _ => ([], .crashed)
      else if name = "errtext" then
        match rest with
        | [] => ([], .errReturned "EOF")
        | .decodeErr :: _ => ([], .errReturned "decode error")
        | .cdata s :: rest2 => if ec then ([], .errReturned s) else innerLoop rest2 ec s
        | _ :: _ => ([], .crashed)
      else if name = "record" then
        match goRecord rest [] "" "" true [] with
        | (ms, e) => (ms, .streamed e)
      else innerLoop rest ec et
  | _ :: rest, ec, et => innerLoop rest ec et

/-- The outer loop of `DoQueryChan` (quickbase.go lines 451-536): skip
processing instructions (and other non-start tokens), require the
first start element to be `qdbapi`, then run the inner loop.  Clean
EOF falls out of the loop into `panic("should never have gotten
here")` (line 535). -/
def doQueryChanDecode : List Tok → ChanResult
  | [] => ([], .crashed)
  | .decodeErr :: _ => ([], .errReturned "decode error")
  | .procInst :: rest => doQueryChanDecode rest
  | .stag name :: rest =>
      if name = "qdbapi" then innerLoop rest false ""
      else ([], .errReturned ("qdbapi expected; " ++ name ++ " found"))
  | _ :: rest => doQueryChanDecode rest

/-! ## Serialized response envelopes

A well-formed QuickBase response is a `qdbapi` envelope holding the
status elements `errcode`/`errtext` followed by zero or more `record`
elements, each a list of field elements whose content interleaves text
fragments with `BR` line-break elements. -/

/-- Content item of a field element: a text fragment or a `<BR/>`. -/
inductive Item
  | text (s : String)
  | br
  deriving DecidableEq, Repr

/-- A field element of a record: tag name (the field label) and content. -/
structure QField where
  name : String
  items : List Item
  deriving DecidableEq, Repr

/-- A `record` element. -/
structure QRecord where
  fields : List QField
  deriving DecidableEq, Repr

/-- Token serialization of one field content item. -/
def itemToks : Item → List Tok
  | .text s => [.cdata s]
  | .br => [.stag "BR", .etag "BR"]

/-- Token serialization of a field element. -/
def fieldToks (f : QField) : List Tok :=
  .stag f.name :: (f.items.flatMap itemToks ++ [.etag f.name])

/-- Tokens of a record element after its start tag. -/
def recTail (r : QRecord) : List Tok :=
  r.fields.flatMap fieldToks ++ [.etag "record"]

/-- Token serialization of a record element. -/
def recordToks (r : QRecord) : List Tok :=
  .stag "record" :: recTail r

/-- A status header element of the envelope. -/
inductive Header
  | code (s : String)
  | htext (s : String)
  deriving DecidableEq, Repr

/-- Token serialization of a status header element. -/
def headerToks : Header → List Tok
  | .code s => [.stag "errcode", .cdata s, .etag "errcode"]
  | .htext s => [.stag "errtext", .cdata s, .etag "errtext"]

/-- Token serialization of a complete response envelope with the given
status headers and records. -/
def respToks (hs : List Header) (rs : List QRecord) : List Tok :=
  .stag "qdbapi" :: (hs.flatMap headerToks ++ (rs.flatMap recordToks ++ [.etag "qdbapi"]))

/-- A response stream with errcode `0`, errtext `t`, the given
records, and an arbitrary continuation `fin` in place of the closing
envelope tag (used to model trailing junk or a truncated stream). -/
def rawStream (t : String) (rs : List QRecord) (fin : List Tok) : List Tok :=
  .stag "qdbapi" :: (headerToks (.code "0") ++ (headerToks (.htext t) ++
    (rs.flatMap recordToks ++ fin)))

/-- A complete success-response stream. -/
def stdStream (t : String) (rs : List QRecord) : List Tok :=
  rawStream t rs [.etag "qdbapi"]

/-- Text content of an item (`""` for `BR`). -/
def itemText : Item → String
  | .text s => s
  | .br => ""

/-- Whether an item is a text fragment. -/
def isTextItem : Item → Bool
  | .text _ => true
  | .br => false

/-- Concatenation of the text fragments of a field's items. -/
def textConcat : List Item → String
  | [] => ""
  | i :: is => itemText i ++ textConcat is

/-- A field is well formed for streaming extraction when its tag is
not the reserved `record` tag and its content is plain text. -/
def wfField (f : QField) : Prop :=
  f.name ≠ "record" ∧ ∀ i ∈ f.items, isTextItem i = true

/-- All fields of a record are well formed. -/
def wfRec (r : QRecord) : Prop := ∀ f ∈ r.fields, wfField f

/-- All records of a response are well formed. -/
def wfRecs (rs : List QRecord) : Prop := ∀ r ∈ rs, wfRec r

instance : DecidablePred wfField := fun f => by unfold wfField; infer_instance
instance : DecidablePred wfRec := fun r => by unfold wfRec; infer_instance
instance : DecidablePred wfRecs := fun rs => by unfold wfRecs; infer_instance

/-- Effect of extracting one (text-only) field on the shared record map. -/
def applyField (m : RecordMap) (f : QField) : RecordMap :=
  mapInsert m f.name (textConcat f.items)

/-- Effect of extracting one record on the shared record map. -/
def applyRec (m : RecordMap) (r : QRecord) : RecordMap :=
  r.fields.foldl applyField m

/-- Effect of extracting a list of records on the shared record map. -/
def applyAll (m : RecordMap) (rs : List QRecord) : RecordMap :=
  rs.foldl applyRec m

/-- The sequence of map values sent on the channel: the shared map is
mutated record by record, so each sent value extends the previous one. -/
def cumMaps (m : RecordMap) : List QRecord → List RecordMap
  | [] => []
  | r :: rs => applyRec m r :: cumMaps (applyRec m r) rs

/-! ## The tree-based extraction of `DoQuery` (quickbase.go lines 374-401)

`DoQuery` walks the parsed document: for each `record` node a fresh
map is allocated, and for each field child the grandchildren are
folded into `record_map[label] += fragment`, with `"\r"` substituted
for a `BR` element and an error returned on any other element or node
type. -/

/-- A grandchild node of a field element in the parsed `xmlx` tree. -/
inductive GNode
  | text (s : String)
  | elem (name : String)
  | otherNode
  deriving DecidableEq, Repr

/-- A field element of a record in the parsed tree. -/
structure TField where
  name : String
  children : List GNode
  deriving DecidableEq, Repr

/-- The grandchild loop of `DoQuery` for one field (lines 384-398):
`record_map[child.Name.Local] += ...` per text node, `"\r"` per `BR`
element, error otherwise. -/
def doQueryField (m : RecordMap) (name : String) : List GNode → Except String RecordMap
  | [] => .ok m
  | .text s :: gs => doQueryField (mapInsert m name (mapGetD m name ++ s)) name gs
  | .elem g :: gs =>
      if g = "BR" then doQueryField (mapInsert m name (mapGetD m name ++ "\r")) name gs
      else .error ("Cannot handle tag " ++ g ++ " within value for field " ++ name)
  | .otherNode :: _ =>
      .error ("Cannot handle non-text, non-element within value for field " ++ name)

/-- The field loop of `DoQuery` for one record (lines 376-399). -/
def doQueryRecord (m : RecordMap) : List TField → Except String RecordMap
  | [] => .ok m
  | f :: fs =>
      match doQueryField m f.name f.children with
      | .error e => .error e
      | .ok m2 => doQueryRecord m2 fs

/-- The record loop of `DoQuery` (lines 374-401): a fresh map per
record; the first malformed grandchild aborts the whole call. -/
def doQueryRecords : List (List TField) → Except String (List RecordMap)
  | [] => .ok []
  | r :: rs =>
      match doQueryRecord [] r with
      | .error e => .error e
      | .ok m =>
          match doQueryRecords rs with
          | .error e => .error e
          | .ok ms => .ok (m :: ms)

/-- Reconstructed value of a field in `DoQuery`: text fragments joined
with a carriage return substituted at each `BR` element. -/
def brJoin : List GNode → String
  | [] => ""
  | .text s :: gs => s ++ brJoin gs
  | .elem _ :: gs => "\r" ++ brJoin gs
  | .otherNode :: gs => brJoin gs

/-- Whether a grandchild node is a text fragment or a `BR` element. -/
def isTextOrBR : GNode → Bool
  | .text _ => true
  | .elem n => n = "BR"
  | .otherNode => false

/-- A field's children are text fragments and `BR` elements only. -/
def wfGNodes (gs : List GNode) : Prop :=
  ∀ g ∈ gs, isTextOrBR g = true

instance : DecidablePred wfGNodes := fun gs => by unfold wfGNodes; infer_instance

/-- The net effect of the grandchild loop of `DoQuery` on the record
map, for well-formed children. -/
def applyGField (m : RecordMap) (name : String) : List GNode → RecordMap
  | [] => m
  | .text s :: gs => applyGField (mapInsert m name (mapGetD m name ++ s)) name gs
  | .elem _ :: gs => applyGField (mapInsert m name (mapGetD m name ++ "\r")) name gs
  | .otherNode :: gs => applyGField m name gs

/-- The net effect of one field of `DoQuery` on the record map. -/
def applyTField (m : RecordMap) (f : TField) : RecordMap :=
  applyGField m f.name f.children


/-! ## The status check of `executeApiCall` (quickbase.go lines 127-136) -/

/-- Digits accumulator for `goAtoi`. -/
def parseDigitsAux : List Char → Nat → Option Nat
  | [], acc => some acc
  | c :: cs, acc =>
      if c.isDigit then parseDigitsAux cs (acc * 10 + (c.toNat - 48)) else none

/-- Parse a nonempty all-digit string. -/
def parseDigits : List Char → Option Nat
  | [] => none
  | cs => parseDigitsAux cs 0

/-- Go `strconv.Atoi` (= `ParseInt(s, 10, 64)` on a 64-bit platform):
optional sign, at least one digit, nothing else, result within the
`int64` range; `none` models a returned error. -/
def goAtoi (s : String) : Option Int :=
  match s.toList with
  | '+' :: cs => (parseDigits cs).bind fun n => if n ≤ 2 ^ 63 - 1 then some (n : Int) else none
  | '-' :: cs => (parseDigits cs).bind fun n => if n ≤ 2 ^ 63 then some (-(n : Int)) else none
  | cs => (parseDigits cs).bind fun n => if n ≤ 2 ^ 63 - 1 then some (n : Int) else none

/-- The decoded response envelope as seen by `executeApiCall`: the
text content of its `errcode` and `errtext` nodes. -/
structure QBDoc where
  errcode : String
  errtext : String
  deriving DecidableEq, Repr

/-- An error returned by `executeApiCall` after decoding. -/
inductive QBCallErr
  | api (code : Int) (text : String)  -- `QuickBaseError{Message: text, Code: code}`
  | atoiFailed                        -- the `strconv.Atoi` error is returned instead
  deriving DecidableEq, Repr

/-- The status check of `executeApiCall` (lines 127-136): if the
`errcode` text differs from "0", parse it and return a
`QuickBaseError` (or the parse error); otherwise return the document.
The pair mirrors Go's `(doc, err)` return values. -/
def executeApiCallCheck (d : QBDoc) : Option QBDoc × Option QBCallErr :=
  if d.errcode ≠ "0" then
    match goAtoi d.errcode with
    | none => (none, some .atoiFailed)
    | some code => (none, some (.api code d.errtext))
  else (some d, none)

/-! ## The request envelope codec (quickbase.go lines 81-103)

`executeApiCall` marshals the parameter map as a `qdbapi` element with
one child per parameter (`apiParam`: element name = key, character
data = value; `xml.Marshal` emits no character-data token for an
empty value).  Decoding reads the children of the envelope back into
key/value pairs. -/

/-- Token serialization of the request envelope produced by
`xml.Marshal` on `quickBaseRequest`, for one iteration order of the
parameter map. -/
def encodeEnvelope (params : List (String × String)) : List Tok :=
  .stag "qdbapi" :: (params.flatMap fun p =>
    .stag p.1 :: ((if p.2 = "" then [] else [.cdata p.2]) ++ [.etag p.1])) ++ [.etag "qdbapi"]

/-- Decode the children of the envelope back into key/value pairs. -/
def decodeParamsAux : List Tok → Option (List (String × String))
  | [.etag "qdbapi"] => some []
  | .stag k :: .cdata v :: .etag k2 :: rest =>
      if k = k2 then (decodeParamsAux rest).map fun l => (k, v) :: l else none
  | .stag k :: .etag k2 :: rest =>
      if k = k2 then (decodeParamsAux rest).map fun l => (k, "") :: l else none
  | _ => none

/-- Decode a request envelope into its key/value pairs. -/
def decodeEnvelope : List Tok → Option (List (String × String))
  | .stag "qdbapi" :: rest => decodeParamsAux rest
  | _ => none

/-- A token the outer loop of `DoQueryChan` passes over without
dispatching: processing instructions are skipped explicitly, and
character data, comments and end tags match no case of its switch. -/
def benignTok (t : Tok) : Prop :=
  t = Tok.procInst ∨ t = Tok.comment ∨ (∃ s, t = Tok.cdata s) ∨ (∃ s, t = Tok.etag s)


/-! ## Map lemmas -/

theorem mapGet_insert_self (m : RecordMap) (k v : String) :
    mapGet (mapInsert m k v) k = some v := by
  simp [mapInsert, mapGet]

theorem mapGet_insert_ne (m : RecordMap) (k v nm : String) (h : k ≠ nm) :
    mapGet (mapInsert m k v) nm = mapGet m nm := by
  unfold mapInsert mapGet
  rw [List.find?_cons_of_neg _ (by simp [h])]
  congr 1
  induction m with
  | nil => rfl
  | cons p m ih =>
      by_cases hk : p.1 = k
      · have hnm : ¬ (p.1 = nm) := by rw [hk]; exact h
        rw [List.filter_cons_of_neg (by simp [hk]), List.find?_cons_of_neg _ (by simp [hnm]), ih]
      · by_cases hnm : p.1 = nm
        · rw [List.filter_cons_of_pos (by simp [hk]), List.find?_cons_of_pos _ (by simp [hnm]),
            List.find?_cons_of_pos _ (by simp [hnm])]
        · rw [List.filter_cons_of_pos (by simp [hk]), List.find?_cons_of_neg _ (by simp [hnm]),
            List.find?_cons_of_neg _ (by simp [hnm]), ih]

/-! ## Step lemmas for the record-extraction goroutine -/

theorem goRecord_stag_in (n : String) (X : List Tok) (m : RecordMap) (lf ld : String)
    (acc : List RecordMap) :
    goRecord (.stag n :: X) m lf ld true acc = goRecord X m n "" true acc := rfl

theorem goRecord_etag_field (n : String) (hn : n ≠ "record") (X : List Tok) (m : RecordMap)
    (lf ld : String) (acc : List RecordMap) :
    goRecord (.etag n :: X) m lf ld true acc
      = goRecord X (mapInsert m lf ld) "" ld true acc := by
  simp [goRecord, hn]

theorem goRecord_etag_emit (X : List Tok) (m : RecordMap) (lf ld : String)
    (acc : List RecordMap) :
    goRecord (.etag "record" :: X) m lf ld true acc = goRecord X m lf ld false (m :: acc) := rfl

theorem goRecord_stag_next (X : List Tok) (m : RecordMap) (lf ld : String)
    (acc : List RecordMap) :
    goRecord (.stag "record" :: X) m lf ld false acc = goRecord X m lf ld true acc := rfl

theorem goRecord_etag_close (X : List Tok) (m : RecordMap) (lf ld : String)
    (acc : List RecordMap) :
    goRecord (.etag "qdbapi" :: X) m lf ld false acc = (acc.reverse, .closedChan) := rfl

theorem goRecord_stag_junk (n : String) (hn : n ≠ "record") (X : List Tok) (m : RecordMap)
    (lf ld : String) (acc : List RecordMap) :
    goRecord (.stag n :: X) m lf ld false acc = (acc.reverse, .closedChan) := by
  simp [goRecord, hn]

theorem goRecord_decodeErr (X : List Tok) (m : RecordMap) (lf ld : String) (ir : Bool)
    (acc : List RecordMap) :
    goRecord (.decodeErr :: X) m lf ld ir acc = (acc.reverse, .spinNoClose) := rfl

/-- Consuming a run of text fragments accumulates them onto `last_data`. -/
theorem goRecord_cdata_run (its : List Item) (h : ∀ i ∈ its, isTextItem i = true)
    (rest : List Tok) (m : RecordMap) (lf ld : String) (ir : Bool) (acc : List RecordMap) :
    goRecord (its.flatMap itemToks ++ rest) m lf ld ir acc
      = goRecord rest m lf (ld ++ textConcat its) ir acc := by
  induction its generalizing ld with
  | nil => simp [textConcat]
  | cons i is ih =>
      cases i with
      | text s =>
          have : ((Item.text s :: is).flatMap itemToks ++ rest)
              = Tok.cdata s :: (is.flatMap itemToks ++ rest) := by simp [itemToks]
          rw [this]
          show goRecord (is.flatMap itemToks ++ rest) m lf (ld ++ s) ir acc = _
          rw [ih (fun i hi => h i (by simp [hi]))]
          simp [textConcat, itemText, String.append_assoc]
      | br => exact absurd (h .br (by simp)) (by simp [isTextItem])

/-- Consuming one serialized (text-only) field updates the shared map
by `record[name] = concatenated text`. -/
theorem goRecord_consume_field (f : QField) (hn : f.name ≠ "record")
    (hw : ∀ i ∈ f.items, isTextItem i = true) (rest : List Tok) (m : RecordMap)
    (lf ld : String) (acc : List RecordMap) :
    goRecord (fieldToks f ++ rest) m lf ld true acc
      = goRecord rest (applyField m f) "" (textConcat f.items) true acc := by
  unfold fieldToks applyField
  rw [List.cons_append, List.append_assoc, goRecord_stag_in, goRecord_cdata_run _ hw]
  show goRecord (Tok.etag f.name :: rest) m f.name ("" ++ textConcat f.items) true acc = _
  rw [goRecord_etag_field f.name hn]
  have : ("" : String) ++ textConcat f.items = textConcat f.items := by simp
  rw [this]

/-- Consuming a run of serialized fields folds their assignments over
the shared map (for some final `last_field`/`last_data` state). -/
theorem goRecord_consume_fields (fs : List QField) (h : ∀ f ∈ fs, wfField f)
    (rest : List Tok) (m : RecordMap) (lf ld : String) (acc : List RecordMap) :
    ∃ lf2 ld2, goRecord (fs.flatMap fieldToks ++ rest) m lf ld true acc
      = goRecord rest (fs.foldl applyField m) lf2 ld2 true acc := by
  induction fs generalizing m lf ld with
  | nil => exact ⟨lf, ld, by simp⟩
  | cons f fs ih =>
      have hf := h f (by simp)
      obtain ⟨lf2, ld2, heq⟩ :=
        ih (fun g hg => h g (by simp [hg])) (applyField m f) "" (textConcat f.items)
      refine ⟨lf2, ld2, ?_⟩
      rw [List.flatMap_cons, List.append_assoc, goRecord_consume_field f hf.1 hf.2, heq]
      simp

/-- Consuming a run of serialized records emits the cumulative maps;
the terminal continuation `fin` decides how the goroutine ends. -/
theorem goRecord_consume_records (rs : List QRecord) (h : wfRecs rs) (fin : List Tok)
    (endK : StreamEnd)
    (hfin : ∀ m lf ld acc, goRecord fin m lf ld false acc = (acc.reverse, endK)) :
    ∀ (m : RecordMap) (lf ld : String) (acc : List RecordMap),
    goRecord (rs.flatMap recordToks ++ fin) m lf ld false acc
      = (acc.reverse ++ cumMaps m rs, endK) := by
  induction rs with
  | nil => intro m lf ld acc; simp [cumMaps, hfin]
  | cons r rs ih =>
      intro m lf ld acc
      have hr : wfRec r := h r (by simp)
      have hrs : wfRecs rs := fun x hx => h x (by simp [hx])
      rw [List.flatMap_cons, List.append_assoc, recordToks, List.cons_append,
        goRecord_stag_next, recTail, List.append_assoc]
      obtain ⟨lf2, ld2, heq⟩ := goRecord_consume_fields r.fields hr
        ([Tok.etag "record"] ++ (rs.flatMap recordToks ++ fin)) m lf ld acc
      rw [heq, List.singleton_append, goRecord_etag_emit, ih hrs]
      simp [cumMaps, applyRec]

/-- Entry of the goroutine: the first `record` start tag was consumed
by the envelope loop, the map starts empty, `in_record` is true. -/
theorem goRecord_entry (r : QRecord) (rs : List QRecord) (h : wfRecs (r :: rs))
    (fin : List Tok) (endK : StreamEnd)
    (hfin : ∀ m lf ld acc, goRecord fin m lf ld false acc = (acc.reverse, endK)) :
    goRecord (recTail r ++ (rs.flatMap recordToks ++ fin)) [] "" "" true []
      = (cumMaps [] (r :: rs), endK) := by
  have hr : wfRec r := h r (by simp)
  have hrs : wfRecs rs := fun x hx => h x (by simp [hx])
  rw [recTail, List.append_assoc]
  obtain ⟨lf2, ld2, heq⟩ := goRecord_consume_fields r.fields hr
    ([Tok.etag "record"] ++ (rs.flatMap recordToks ++ fin)) [] "" "" []
  rw [heq, List.singleton_append, goRecord_etag_emit,
    goRecord_consume_records rs hrs fin endK hfin]
  simp [cumMaps, applyRec]

/-! ## Step lemmas for the envelope loop -/

theorem innerLoop_code0 (k : List Tok) (ec : Bool) (et : String) :
    innerLoop (Tok.stag "errcode" :: Tok.cdata "0" :: Tok.etag "errcode" :: k) ec et
      = innerLoop k ec et := rfl

theorem innerLoop_text_capture (t : String) (k : List Tok) (et : String) :
    innerLoop (Tok.stag "errtext" :: Tok.cdata t :: Tok.etag "errtext" :: k) false et
      = innerLoop k false t := rfl

theorem innerLoop_code_nz (c : String) (hc : c ≠ "0") (k : List Tok) (ec : Bool) :
    innerLoop (Tok.stag "errcode" :: Tok.cdata c :: Tok.etag "errcode" :: k) ec ""
      = innerLoop k true "" := by
  simp [innerLoop, hc]

theorem innerLoop_code_nz_err (c : String) (hc : c ≠ "0") (k : List Tok) (ec : Bool)
    (et : String) (het : et ≠ "") :
    innerLoop (Tok.stag "errcode" :: Tok.cdata c :: k) ec et = ([], .errReturned et) := by
  simp [innerLoop, hc, het]

theorem innerLoop_text_err (t : String) (k : List Tok) :
    innerLoop (Tok.stag "errtext" :: Tok.cdata t :: k) true et = ([], .errReturned t) := by
  simp [innerLoop]

theorem innerLoop_record (tail : List Tok) (ec : Bool) (et : String) (ms : List RecordMap)
    (e : StreamEnd) (hgr : goRecord tail [] "" "" true [] = (ms, e)) :
    innerLoop (Tok.stag "record" :: tail) ec et = (ms, .streamed e) := by
  rw [innerLoop.eq_def]
  simp [hgr]

theorem decode_qdbapi (rest : List Tok) :
    doQueryChanDecode (.stag "qdbapi" :: rest) = innerLoop rest false "" := rfl

/-- A success response whose records are followed by continuation
`fin` streams all records and ends the way `fin` dictates. -/
theorem decode_raw_general (t : String) (r : QRecord) (rs : List QRecord)
    (h : wfRecs (r :: rs)) (fin : List Tok) (endK : StreamEnd)
    (hfin : ∀ m lf ld acc, goRecord fin m lf ld false acc = (acc.reverse, endK)) :
    doQueryChanDecode (rawStream t (r :: rs) fin)
      = (cumMaps [] (r :: rs), .streamed endK) := by
  rw [rawStream, decode_qdbapi]
  show innerLoop (Tok.stag "errcode" :: Tok.cdata "0" :: Tok.etag "errcode" ::
    (Tok.stag "errtext" :: Tok.cdata t :: Tok.etag "errtext" ::
      ((r :: rs).flatMap recordToks ++ fin))) false "" = _
  rw [innerLoop_code0, innerLoop_text_capture]
  rw [List.flatMap_cons, List.append_assoc, recordToks, List.cons_append,
    innerLoop_record _ _ _ _ _ (goRecord_entry r rs h fin endK hfin)]

/-- A complete success response with at least one record streams all
records and closes the channel. -/
theorem decode_std_stream (t : String) (rs : List QRecord) (h : wfRecs rs) (hne : rs ≠ []) :
    doQueryChanDecode (stdStream t rs) = (cumMaps [] rs, .streamed .closedChan) := by
  cases rs with
  | nil => exact absurd rfl hne
  | cons r rs =>
      exact decode_raw_general t r rs h [.etag "qdbapi"] .closedChan
        (fun m lf ld acc => goRecord_etag_close [] m lf ld acc)

/-! ## Algebra of the shared record map -/

theorem applyAll_append (m : RecordMap) (xs ys : List QRecord) :
    applyAll m (xs ++ ys) = applyAll (applyAll m xs) ys := by
  simp [applyAll, List.foldl_append]

theorem cumMaps_append (m : RecordMap) (xs ys : List QRecord) :
    cumMaps m (xs ++ ys) = cumMaps m xs ++ cumMaps (applyAll m xs) ys := by
  induction xs generalizing m with
  | nil => simp [cumMaps, applyAll]
  | cons x xs ih => simp [cumMaps, applyAll, ih]

theorem cumMaps_cons (m : RecordMap) (r : QRecord) (rs : List QRecord) :
    cumMaps m (r :: rs) = applyRec m r :: cumMaps (applyRec m r) rs := rfl

theorem mapGet_fields_foldl_ne (fs : List QField) (m : RecordMap) (nm : String)
    (h : ∀ f ∈ fs, f.name ≠ nm) :
    mapGet (fs.foldl applyField m) nm = mapGet m nm := by
  induction fs generalizing m with
  | nil => rfl
  | cons f fs ih =>
      rw [List.foldl_cons, ih _ (fun g hg => h g (by simp [hg]))]
      exact mapGet_insert_ne m f.name _ nm (h f (by simp))

theorem mapGet_applyRec_ne (m : RecordMap) (r : QRecord) (nm : String)
    (h : ∀ f ∈ r.fields, f.name ≠ nm) :
    mapGet (applyRec m r) nm = mapGet m nm :=
  mapGet_fields_foldl_ne r.fields m nm h

theorem mapGet_applyAll_ne (rs : List QRecord) (m : RecordMap) (nm : String)
    (h : ∀ r ∈ rs, ∀ f ∈ r.fields, f.name ≠ nm) :
    mapGet (applyAll m rs) nm = mapGet m nm := by
  induction rs generalizing m with
  | nil => rfl
  | cons r rs ih =>
      show mapGet (applyAll (applyRec m r) rs) nm = _
      rw [ih _ (fun x hx => h x (by simp [hx]))]
      exact mapGet_applyRec_ne m r nm (h r (by simp))

/-! ## An error return means nothing was sent on the channel -/

/-- If the envelope loop returns an error, no record was sent. -/
theorem innerLoop_err_no_records : ∀ (toks : List Tok) (ec : Bool) (et : String) (msg : String),
    (innerLoop toks ec et).2 = ChanOutcome.errReturned msg → (innerLoop toks ec et).1 = [] := by
  intro toks ec et
  induction toks, ec, et using innerLoop.induct with
  | case14 rest ec et ms e hgr =>
      intro msg h
      rw [innerLoop_record rest ec et ms e hgr] at h
      exact absurd h (by simp)
  | _ => first
    | (intro msg h; simp_all [innerLoop])
    | (intro msg h; rw [innerLoop.eq_def] at h ⊢; simp_all)

/-- If `DoQueryChan` returns a non-nil error, no record was sent. -/
theorem decode_err_no_records : ∀ (toks : List Tok) (msg : String),
    (doQueryChanDecode toks).2 = ChanOutcome.errReturned msg →
      (doQueryChanDecode toks).1 = [] := by
  intro toks
  induction toks using doQueryChanDecode.induct with
  | case4 rest =>
      intro msg h
      exact innerLoop_err_no_records rest false "" msg h
  | _ => intro msg h; simp_all [doQueryChanDecode]

/-! ## Characterizing the `DoQuery` field extraction -/

theorem doQueryField_ok (gs : List GNode) (h : wfGNodes gs) (m : RecordMap) (name : String) :
    doQueryField m name gs = .ok (applyGField m name gs) := by
  induction gs generalizing m with
  | nil => rfl
  | cons g gs ih =>
      cases g with
      | text s => simp [doQueryField, applyGField, ih (fun x hx => h x (by simp [hx]))]
      | elem n =>
          have hn : n = "BR" := by simpa [isTextOrBR] using h (GNode.elem n) (by simp)
          simp [doQueryField, applyGField, hn, ih (fun x hx => h x (by simp [hx]))]
      | otherNode => exact absurd (h GNode.otherNode (by simp)) (by simp [isTextOrBR])

theorem doQueryRecord_ok (fs : List TField) (h : ∀ f ∈ fs, wfGNodes f.children)
    (m : RecordMap) :
    doQueryRecord m fs = .ok (fs.foldl applyTField m) := by
  induction fs generalizing m with
  | nil => rfl
  | cons f fs ih =>
      rw [doQueryRecord, doQueryField_ok f.children (h f (by simp)) m f.name]
      show doQueryRecord (applyGField m f.name f.children) fs = _
      rw [ih (fun g hg => h g (by simp [hg]))]
      rfl

/-- The value accumulated for a field's own label: previous content
with the fragments appended, `"\r"` at each `BR`. -/
theorem mapGet_applyGField_self (gs : List GNode) (hwf : wfGNodes gs) (m : RecordMap)
    (name : String) (hne : gs ≠ []) :
    mapGet (applyGField m name gs) name = some (mapGetD m name ++ brJoin gs) := by
  induction gs generalizing m with
  | nil => exact absurd rfl hne
  | cons g gs ih =>
      have hwfgs : wfGNodes gs := fun x hx => hwf x (by simp [hx])
      have step : ∀ frag, mapGet (applyGField (mapInsert m name (mapGetD m name ++ frag))
          name gs) name = some (mapGetD m name ++ (frag ++ brJoin gs)) := by
        intro frag
        cases gs with
        | nil =>
            show mapGet (mapInsert m name (mapGetD m name ++ frag)) name = _
            rw [mapGet_insert_self]
            simp [brJoin, String.append_assoc]
        | cons g2 gs2 =>
            rw [ih hwfgs _ (by simp)]
            have : mapGetD (mapInsert m name (mapGetD m name ++ frag)) name
                = mapGetD m name ++ frag := by
              simp [mapGetD, mapGet_insert_self]
            rw [this, String.append_assoc]
      cases g with
      | text s => simpa [applyGField, brJoin] using step s
      | elem n => simpa [applyGField, brJoin] using step "\r"
      | otherNode => exact absurd (hwf GNode.otherNode (by simp)) (by simp [isTextOrBR])

/-- A field's extraction does not touch other labels. -/
theorem mapGet_applyGField_ne (gs : List GNode) (m : RecordMap) (name nm : String)
    (h : name ≠ nm) :
    mapGet (applyGField m name gs) nm = mapGet m nm := by
  induction gs generalizing m with
  | nil => rfl
  | cons g gs ih =>
      cases g with
      | text s => rw [applyGField, ih, mapGet_insert_ne _ _ _ _ h]
      | elem n => rw [applyGField, ih, mapGet_insert_ne _ _ _ _ h]
      | otherNode => rw [applyGField, ih]

/-- A run of fields with other labels does not touch label `nm`. -/
theorem mapGet_tfields_foldl_ne (fs : List TField) (m : RecordMap) (nm : String)
    (h : ∀ f ∈ fs, f.name ≠ nm) :
    mapGet (fs.foldl applyTField m) nm = mapGet m nm := by
  induction fs generalizing m with
  | nil => rfl
  | cons f fs ih =>
      rw [List.foldl_cons, ih _ (fun g hg => h g (by simp [hg]))]
      exact mapGet_applyGField_ne f.children m f.name nm (h f (by simp))

/-! ## Round trip of the request envelope codec -/

theorem decodeParamsAux_encode (l : List (String × String)) :
    decodeParamsAux ((l.flatMap fun p =>
      Tok.stag p.1 :: ((if p.2 = "" then [] else [Tok.cdata p.2]) ++ [Tok.etag p.1]))
        ++ [Tok.etag "qdbapi"]) = some l := by
  induction l with
  | nil => rfl
  | cons p l ih =>
      rcases p with ⟨k, v⟩
      by_cases hv : v = ""
      · subst hv
        simp only [List.flatMap_cons, reduceIte, List.nil_append, List.cons_append,
          List.append_assoc, List.singleton_append]
        rw [decodeParamsAux.eq_def]
        simp [ih]
      · simp only [List.flatMap_cons, hv, reduceIte, List.cons_append, List.append_assoc,
          List.singleton_append]
        rw [decodeParamsAux.eq_def]
        simp [ih]

theorem decodeEnvelope_encodeEnvelope (l : List (String × String)) :
    decodeEnvelope (encodeEnvelope l) = some l := by
  have he : encodeEnvelope l = Tok.stag "qdbapi" :: ((l.flatMap fun p =>
      Tok.stag p.1 :: ((if p.2 = "" then [] else [Tok.cdata p.2]) ++ [Tok.etag p.1]))
        ++ [Tok.etag "qdbapi"]) := by
    simp [encodeEnvelope]
  rw [he]
  show decodeParamsAux _ = some l
  exact decodeParamsAux_encode l

/-! ## Facts about the Atoi model -/

theorem goAtoi_zero : goAtoi "0" = some 0 := by decide

/-! # Claims -/

/-- C1: the claim says that for every well-formed response with error
code 0 and N >= 0 records, `DoQueryChan` yields exactly N records and
then closes the channel.  For N = 0 the code instead falls out of both
token loops at EOF and executes `panic("should never have gotten
here")` (quickbase.go line 535): the decoder crashes, yields nothing,
and never closes the channel.  This theorem evaluates the decoder at
that failing input. -/
theorem doQueryChan_zero_records_crash :
    doQueryChanDecode (respToks [Header.code "0", Header.htext "No error"] [])
      = ([], ChanOutcome.crashed) := by
  decide

/-- C2 (amended): for a response whose non-zero `errcode` appears
before any record, `DoQueryChan` returns a non-nil error, a nil
channel, and yields zero records — when the code precedes the text, or
when the text precedes the code and is nonempty.  (If an empty status
text precedes the non-zero code, the pending error is never finalized;
see the counterexample.) -/
theorem doQueryChan_error_before_records (c t : String) (rs : List QRecord) :
    (c ≠ "0" → doQueryChanDecode (respToks [Header.code c, Header.htext t] rs)
        = ([], ChanOutcome.errReturned t))
    ∧ (c ≠ "0" → t ≠ "" → doQueryChanDecode (respToks [Header.htext t, Header.code c] rs)
        = ([], ChanOutcome.errReturned t)) := by
  constructor
  · intro hc
    show doQueryChanDecode (Tok.stag "qdbapi" :: Tok.stag "errcode" :: Tok.cdata c ::
      Tok.etag "errcode" :: Tok.stag "errtext" :: Tok.cdata t :: Tok.etag "errtext" ::
      (rs.flatMap recordToks ++ [Tok.etag "qdbapi"])) = _
    rw [decode_qdbapi, innerLoop_code_nz c hc, innerLoop_text_err]
  · intro hc ht
    show doQueryChanDecode (Tok.stag "qdbapi" :: Tok.stag "errtext" :: Tok.cdata t ::
      Tok.etag "errtext" :: Tok.stag "errcode" :: Tok.cdata c ::
      (Tok.etag "errcode" :: (rs.flatMap recordToks ++ [Tok.etag "qdbapi"]))) = _
    rw [decode_qdbapi, innerLoop_text_capture, innerLoop_code_nz_err c hc _ false t ht]

/-- C2 witness: a concrete non-zero status before any record, in both
orders, fails the call with the status text and yields no records. -/
theorem doQueryChan_error_before_records_witness :
    doQueryChanDecode (respToks [Header.code "5", Header.htext "boom"] [])
      = ([], ChanOutcome.errReturned "boom")
    ∧ doQueryChanDecode (respToks [Header.htext "boom", Header.code "5"] [])
      = ([], ChanOutcome.errReturned "boom") :=
  ⟨(doQueryChan_error_before_records "5" "boom" []).1 (by decide),
   (doQueryChan_error_before_records "5" "boom" []).2 (by decide) (by decide)⟩

/-- C2 counterexample: the claim quantifies over both orders for any
status text, but an empty status text (an empty CDATA section in the
`errtext` element) arriving before the non-zero code leaves
`qb_errtext` equal to `""`, so the non-zero `errcode` does not
finalize the error: the call succeeds and yields a record. -/
theorem doQueryChan_empty_errtext_cex :
    doQueryChanDecode (respToks [Header.htext "", Header.code "5"]
        [⟨[⟨"f", [Item.text "x"]⟩]⟩])
      = ([[("f", "x")]], ChanOutcome.streamed StreamEnd.closedChan)
    ∧ ∀ msg, ChanOutcome.streamed StreamEnd.closedChan ≠ ChanOutcome.errReturned msg :=
  ⟨by decide, fun msg h => ChanOutcome.noConfusion h⟩

/-- C3 (amended): a returned non-nil error implies no record was sent;
an unexpected element after the records closes the channel with the
already-emitted records standing; but a decoder error mid-stream
(e.g. truncation) does not close the channel — the goroutine spins on
the sticky error and consumers see neither an error nor end-of-stream. -/
theorem doQueryChan_midstream_policy :
    (∀ (toks : List Tok) (msg : String),
        (doQueryChanDecode toks).2 = ChanOutcome.errReturned msg →
          (doQueryChanDecode toks).1 = [])
    ∧ (∀ (t junk : String) (r : QRecord) (rs : List QRecord) (tail : List Tok),
        wfRecs (r :: rs) → junk ≠ "record" →
        doQueryChanDecode (rawStream t (r :: rs) (Tok.stag junk :: tail))
          = (cumMaps [] (r :: rs), ChanOutcome.streamed StreamEnd.closedChan))
    ∧ (∀ (t : String) (r : QRecord) (rs : List QRecord),
        wfRecs (r :: rs) →
        doQueryChanDecode (rawStream t (r :: rs) [Tok.decodeErr])
          = (cumMaps [] (r :: rs), ChanOutcome.streamed StreamEnd.spinNoClose)) := by
  refine ⟨decode_err_no_records, ?_, ?_⟩
  · intro t junk r rs tail h hj
    exact decode_raw_general t r rs h _ .closedChan
      (fun m lf ld acc => goRecord_stag_junk junk hj tail m lf ld acc)
  · intro t r rs h
    exact decode_raw_general t r rs h _ .spinNoClose
      (fun m lf ld acc => goRecord_decodeErr [] m lf ld false acc)

/-- C3 witness: concrete instances of all three conjuncts. -/
theorem doQueryChan_midstream_policy_witness :
    doQueryChanDecode (rawStream "ok" [⟨[⟨"f", [Item.text "x"]⟩]⟩]
        (Tok.stag "qid" :: []))
      = ([[("f", "x")]], ChanOutcome.streamed StreamEnd.closedChan)
    ∧ doQueryChanDecode (rawStream "ok" [⟨[⟨"f", [Item.text "x"]⟩]⟩] [Tok.decodeErr])
      = ([[("f", "x")]], ChanOutcome.streamed StreamEnd.spinNoClose)
    ∧ (doQueryChanDecode [Tok.stag "nope"]).1 = [] := by
  refine ⟨?_, ?_, ?_⟩
  · exact (doQueryChan_midstream_policy.2.1 "ok" "qid" ⟨[⟨"f", [Item.text "x"]⟩]⟩ [] []
      (by decide) (by decide)).trans (by decide)
  · exact (doQueryChan_midstream_policy.2.2 "ok" ⟨[⟨"f", [Item.text "x"]⟩]⟩ []
      (by decide)).trans (by decide)
  · exact doQueryChan_midstream_policy.1 [Tok.stag "nope"] "qdbapi expected; nope found"
      (by decide)

/-- C3 counterexample: a decoder error (truncated stream) after one
record was emitted does not close the sequence, contradicting the
claim that any error detected mid-stream causes the sequence to simply
close. -/
theorem doQueryChan_midstream_error_cex :
    doQueryChanDecode [Tok.stag "qdbapi", Tok.stag "errcode", Tok.cdata "0",
        Tok.etag "errcode", Tok.stag "record", Tok.stag "f", Tok.cdata "x", Tok.etag "f",
        Tok.etag "record", Tok.decodeErr]
      = ([[("f", "x")]], ChanOutcome.streamed StreamEnd.spinNoClose)
    ∧ StreamEnd.spinNoClose ≠ StreamEnd.closedChan :=
  ⟨by decide, by decide⟩

/-- C4 (amended): in the tree-based extraction of `DoQuery`, a field
whose label is unique within its record and whose children are text
fragments interleaved with `BR` elements gets the value equal to the
concatenation of the fragments with a carriage return at each `BR`.
(The streaming extraction of `DoQueryChan` does not implement this
substitution; see the counterexample.) -/
theorem doQuery_br_reconstruction (fs : List TField) (hwf : ∀ f ∈ fs, wfGNodes f.children)
    (hnd : (fs.map TField.name).Nodup) (f : TField) (hf : f ∈ fs) (hne : f.children ≠ []) :
    ∃ m, doQueryRecord [] fs = Except.ok m ∧ mapGet m f.name = some (brJoin f.children) := by
  refine ⟨fs.foldl applyTField [], doQueryRecord_ok fs hwf [], ?_⟩
  obtain ⟨pre, post, rfl⟩ := List.append_of_mem hf
  have hmap : ((pre.map TField.name) ++ f.name :: (post.map TField.name)).Nodup := by
    simpa using hnd
  have hpostmem : f.name ∉ post.map TField.name :=
    (List.nodup_cons.mp (hmap.of_append_right)).1
  have hdisj := (List.nodup_append.mp hmap).2.2
  have hpre : ∀ g ∈ pre, g.name ≠ f.name := by
    intro g hg heq
    exact hdisj (List.mem_map_of_mem TField.name hg) (by simp [heq])
  have hpost : ∀ g ∈ post, g.name ≠ f.name := by
    intro g hg heq
    exact hpostmem (by rw [← heq]; exact List.mem_map_of_mem TField.name hg)
  rw [List.foldl_append, List.foldl_cons]
  rw [mapGet_tfields_foldl_ne post _ _ hpost]
  show mapGet (applyGField (pre.foldl applyTField []) f.name f.children) f.name = _
  rw [mapGet_applyGField_self f.children (hwf f hf) _ f.name hne]
  have hget0 : mapGetD (pre.foldl applyTField []) f.name = "" := by
    unfold mapGetD
    rw [mapGet_tfields_foldl_ne pre [] f.name hpre]
    rfl
  rw [hget0]
  congr 1

/-- C4 witness: a field `<f>a<BR/>b</f>` decodes to the value with a
carriage return substituted for the line break. -/
theorem doQuery_br_reconstruction_witness :
    ∃ m, doQueryRecord [] [⟨"f", [GNode.text "a", GNode.elem "BR", GNode.text "b"]⟩]
      = Except.ok m ∧ mapGet m "f" = some "a\rb" := by
  obtain ⟨m, h1, h2⟩ := doQuery_br_reconstruction
    [⟨"f", [GNode.text "a", GNode.elem "BR", GNode.text "b"]⟩] (by decide) (by decide)
    ⟨"f", [GNode.text "a", GNode.elem "BR", GNode.text "b"]⟩ (by simp) (by decide)
  exact ⟨m, h1, h2.trans (by decide)⟩

/-- C4 counterexample: the streaming extraction of `DoQueryChan`, on
the same field `<f>a<BR/>b</f>`, does not produce `"a\rb"` under the
key `f`; the `BR` start tag is treated as a new field, so the emitted
map binds `BR` to `""` and `""` (the reset field name) to `"b"`, and
holds no entry for `f` at all. -/
theorem doQueryChan_br_cex :
    doQueryChanDecode (stdStream "ok" [⟨[⟨"f", [Item.text "a", Item.br, Item.text "b"]⟩]⟩])
      = ([[("", "b"), ("BR", "")]], ChanOutcome.streamed StreamEnd.closedChan)
    ∧ mapGet [("", "b"), ("BR", "")] "f" = none :=
  ⟨by decide, by decide⟩

/-- C5 (amended): the `DoQuery` record map is keyed by the field
element's tag name, and two fields of the same record sharing a label
do not leave the value of just one of them: their reconstructed
contents are concatenated (the second appended after the first) under
the shared key. -/
theorem doQuery_label_collision (name : String) (cs1 cs2 : List GNode)
    (h1 : wfGNodes cs1) (h2 : wfGNodes cs2) (hne2 : cs2 ≠ []) :
    ∃ m, doQueryRecord [] [⟨name, cs1⟩, ⟨name, cs2⟩] = Except.ok m ∧
      mapGet m name = some (brJoin cs1 ++ brJoin cs2) := by
  have hwf : ∀ f ∈ [(⟨name, cs1⟩ : TField), ⟨name, cs2⟩], wfGNodes f.children := by
    intro f hf
    simp only [List.mem_cons, List.not_mem_nil, or_false] at hf
    rcases hf with rfl | rfl
    · exact h1
    · exact h2
  refine ⟨_, doQueryRecord_ok _ hwf [], ?_⟩
  show mapGet (applyGField (applyGField [] name cs1) name cs2) name = _
  rw [mapGet_applyGField_self cs2 h2 _ name hne2]
  congr 1
  by_cases hc1 : cs1 = []
  · subst hc1
    simp [applyGField, mapGetD, mapGet, brJoin]
  · unfold mapGetD
    rw [mapGet_applyGField_self cs1 h1 [] name hc1]
    simp [mapGetD, mapGet]

/-- C5 witness: two colliding text fields with nonempty content. -/
theorem doQuery_label_collision_witness :
    ∃ m, doQueryRecord [] [⟨"foo", [GNode.text "a"]⟩, ⟨"foo", [GNode.text "b"]⟩]
      = Except.ok m ∧ mapGet m "foo" = some "ab" := by
  obtain ⟨m, hm, hv⟩ := doQuery_label_collision "foo" [GNode.text "a"] [GNode.text "b"]
    (by decide) (by decide) (by decide)
  exact ⟨m, hm, hv.trans (by decide)⟩

/-- C5 counterexample: the claim says one colliding field silently
overwrites the other so the map holds the value of exactly one of
them; in fact `DoQuery` accumulates with `+=`, so the final value
`"ab"` is the concatenation, equal to neither field's own value. -/
theorem doQuery_label_collision_cex :
    doQueryRecord [] [⟨"foo", [GNode.text "a"]⟩, ⟨"foo", [GNode.text "b"]⟩]
      = Except.ok [("foo", "ab")]
    ∧ ("ab" : String) ≠ "a" ∧ ("ab" : String) ≠ "b" :=
  ⟨by rfl, by decide, by decide⟩

/-- C6: for every decoded response whose status code parses to a
non-zero integer, `executeApiCall` returns a structured error carrying
that code and the status text instead of the document, and in general
the returned tree is nil exactly when the returned error is non-nil. -/
theorem executeApiCall_nonzero_status :
    (∀ (d : QBDoc) (n : Int), goAtoi d.errcode = some n → n ≠ 0 →
        executeApiCallCheck d = (none, some (QBCallErr.api n d.errtext)))
    ∧ (∀ d : QBDoc, (executeApiCallCheck d).1 = none ↔ (executeApiCallCheck d).2 ≠ none) := by
  constructor
  · intro d n hp hn
    have hz : d.errcode ≠ "0" := by
      intro he
      rw [he, goAtoi_zero] at hp
      exact hn (Option.some_injective _ hp).symm
    unfold executeApiCallCheck
    rw [if_pos hz, hp]
  · intro d
    unfold executeApiCallCheck
    by_cases hz : d.errcode ≠ "0"
    · rw [if_pos hz]
      cases goAtoi d.errcode <;> simp
    · rw [if_neg hz]
      simp

/-- C6 witness: status code 5 with text yields the structured error
and no document, and the nil-tree/non-nil-error equivalence holds at a
successful response. -/
theorem executeApiCall_nonzero_status_witness :
    executeApiCallCheck ⟨"5", "oops"⟩ = (none, some (QBCallErr.api 5 "oops"))
    ∧ ((executeApiCallCheck ⟨"0", "ok"⟩).1 = none ↔ (executeApiCallCheck ⟨"0", "ok"⟩).2 ≠ none) :=
  ⟨executeApiCall_nonzero_status.1 ⟨"5", "oops"⟩ 5 (by decide) (by decide),
   executeApiCall_nonzero_status.2 ⟨"0", "ok"⟩⟩

/-- C7: if the first start element of the response stream is not
`qdbapi`, `DoQueryChan` fails with the protocol error and returns no
sequence (nil channel, zero records), whatever follows. -/
theorem doQueryChan_wrong_envelope (pre : List Tok) (hpre : ∀ t ∈ pre, benignTok t)
    (name : String) (hname : name ≠ "qdbapi") (rest : List Tok) :
    doQueryChanDecode (pre ++ Tok.stag name :: rest)
      = ([], ChanOutcome.errReturned ("qdbapi expected; " ++ name ++ " found")) := by
  induction pre with
  | nil => simp [doQueryChanDecode, hname]
  | cons t pre ih =>
      have hb := hpre t (by simp)
      have hrec := ih fun x hx => hpre x (by simp [hx])
      rcases hb with h | h | ⟨s, h⟩ | ⟨s, h⟩ <;> subst h <;>
        simpa [doQueryChanDecode] using hrec

/-- C7 witness: a prolog followed by an `html` root fails the call. -/
theorem doQueryChan_wrong_envelope_witness :
    doQueryChanDecode [Tok.procInst, Tok.stag "html"]
      = ([], ChanOutcome.errReturned "qdbapi expected; html found") := by
  have h := doQueryChan_wrong_envelope [Tok.procInst]
    (by intro t ht
        simp only [List.mem_singleton] at ht
        subst ht
        exact Or.inl rfl)
    "html" (by decide) []
  simpa using h

/-- C8: encoding a parameter list into the request envelope and
decoding it back reproduces exactly the key/value pairs, and the
recovered set of pairs is invariant under permutation of the emission
order (Go map iteration order is unspecified). -/
theorem wire_codec_roundtrip :
    (∀ l : List (String × String), decodeEnvelope (encodeEnvelope l) = some l)
    ∧ (∀ l1 l2 : List (String × String), l1.Perm l2 →
        ((decodeEnvelope (encodeEnvelope l1)).getD []).Perm
          ((decodeEnvelope (encodeEnvelope l2)).getD [])) := by
  refine ⟨decodeEnvelope_encodeEnvelope, ?_⟩
  intro l1 l2 hp
  rw [decodeEnvelope_encodeEnvelope, decodeEnvelope_encodeEnvelope]
  simpa using hp

/-- C8 witness: a concrete two-parameter map round-trips, and the two
emission orders decode to the same set of pairs. -/
theorem wire_codec_roundtrip_witness :
    decodeEnvelope (encodeEnvelope [("ticket", "t1"), ("clist", "3.6")])
      = some [("ticket", "t1"), ("clist", "3.6")]
    ∧ ((decodeEnvelope (encodeEnvelope [("ticket", "t1"), ("clist", "3.6")])).getD []).Perm
        ((decodeEnvelope (encodeEnvelope [("clist", "3.6"), ("ticket", "t1")])).getD []) :=
  ⟨wire_codec_roundtrip.1 _,
   wire_codec_roundtrip.2 [("ticket", "t1"), ("clist", "3.6")]
     [("clist", "3.6"), ("ticket", "t1")] (by decide)⟩

/-- C10: the token read after an `errcode` or `errtext` start element
is cast unconditionally to character data; on well-formed inputs where
that element is empty (`<errcode></errcode>`) or contains a comment,
the next token is an end tag or comment and the decoder panics instead
of returning an error. -/
theorem doQueryChan_nontext_status_panics :
    doQueryChanDecode [Tok.stag "qdbapi", Tok.stag "errcode", Tok.etag "errcode",
        Tok.etag "qdbapi"] = ([], ChanOutcome.crashed)
    ∧ doQueryChanDecode [Tok.stag "qdbapi", Tok.stag "errtext", Tok.comment,
        Tok.etag "errtext", Tok.etag "qdbapi"] = ([], ChanOutcome.crashed) :=
  ⟨by decide, by decide⟩

/-- C9: the record-extraction goroutine allocates the record map once
and never clears it, so the emitted sequence is the cumulative
`cumMaps`: the map emitted for a later record `r2` is built on top of
the map emitted for an earlier record `r1` (second conjunct places
them in the emission sequence), and it still contains every binding of
`r1`'s map whose key is not re-assigned by a field of the records in
between or of `r2` itself (third conjunct). -/
theorem doQueryChan_shared_map (t : String) (rs1 rs2 rs3 : List QRecord) (r1 r2 : QRecord)
    (hwf : wfRecs (rs1 ++ r1 :: (rs2 ++ r2 :: rs3))) :
    doQueryChanDecode (stdStream t (rs1 ++ r1 :: (rs2 ++ r2 :: rs3)))
      = (cumMaps [] (rs1 ++ r1 :: (rs2 ++ r2 :: rs3)),
         ChanOutcome.streamed StreamEnd.closedChan)
    ∧ cumMaps [] (rs1 ++ r1 :: (rs2 ++ r2 :: rs3))
      = cumMaps [] rs1
        ++ applyRec (applyAll [] rs1) r1
          :: (cumMaps (applyRec (applyAll [] rs1) r1) rs2
            ++ applyRec (applyAll (applyRec (applyAll [] rs1) r1) rs2) r2
              :: cumMaps (applyRec (applyAll (applyRec (applyAll [] rs1) r1) rs2) r2) rs3)
    ∧ (∀ nm : String, (∀ f ∈ r2.fields, f.name ≠ nm) →
        (∀ r ∈ rs2, ∀ f ∈ r.fields, f.name ≠ nm) →
        mapGet (applyRec (applyAll (applyRec (applyAll [] rs1) r1) rs2) r2) nm
          = mapGet (applyRec (applyAll [] rs1) r1) nm) := by
  refine ⟨?_, ?_, ?_⟩
  · exact decode_std_stream t _ hwf (by simp)
  · rw [cumMaps_append, cumMaps_cons, cumMaps_append, cumMaps_cons]
  · intro nm h2 hrs2
    rw [mapGet_applyRec_ne _ _ _ h2, mapGet_applyAll_ne _ _ _ hrs2]

/-- C9 witness: with two single-field records, the second emitted map
still contains the first record's field. -/
theorem doQueryChan_shared_map_witness :
    doQueryChanDecode (stdStream "ok"
        [⟨[⟨"a", [Item.text "1"]⟩]⟩, ⟨[⟨"b", [Item.text "2"]⟩]⟩])
      = ([[("a", "1")], [("b", "2"), ("a", "1")]],
         ChanOutcome.streamed StreamEnd.closedChan)
    ∧ mapGet (applyRec (applyAll (applyRec (applyAll [] []) ⟨[⟨"a", [Item.text "1"]⟩]⟩) [])
          ⟨[⟨"b", [Item.text "2"]⟩]⟩) "a"
      = mapGet (applyRec (applyAll [] []) ⟨[⟨"a", [Item.text "1"]⟩]⟩) "a" := by
  have h := doQueryChan_shared_map "ok" [] [] [] ⟨[⟨"a", [Item.text "1"]⟩]⟩
    ⟨[⟨"b", [Item.text "2"]⟩]⟩ (by decide)
  exact ⟨h.1.trans (by decide), h.2.2 "a" (by decide) (by decide)⟩
